import Mathlib

/-!
# Verification of the MCC plotter core (`plt_MCC.py`)

Shallow embedding of the ingestion / derivation / style-allocation core of
the MCC comparison tool, together with proofs of the specified properties.

Conventions of the embedding:
* Python `float` values are modelled as rationals (`ℚ`); the numeric-text
  conversion models the decimal fragment of Python's `float()` (optional
  sign, digits, at most one decimal point), which covers every numeric
  field of the MCC format considered here.
* Python `None` / fallible results are modelled with `Option`.
* Python `dict`s (header maps, style maps) are modelled as association
  lists in insertion order, which matches `dict` iteration order.
* All definitions mirror the Python source line by line; restructurings
  (e.g. `match` instead of an `elif` chain) preserve the branch order.
-/

namespace MccPlotter

/-! ## String helpers (Python `str.strip`, `str.upper`, `in`, `split`) -/

/-- Characters treated as whitespace by Python's `str.strip` / `str.split`
(ASCII fragment, which is all the MCC format uses). -/
def pyWs (c : Char) : Bool := c.isWhitespace

/-- Drop leading whitespace (left part of Python `str.strip`). -/
def trimLeftChars (cs : List Char) : List Char := cs.dropWhile pyWs

/-- Python `str.strip` on a character list: drop whitespace at both ends. -/
def trimChars (cs : List Char) : List Char :=
  ((cs.dropWhile pyWs).reverse.dropWhile pyWs).reverse

/-- Python `str.strip`. -/
def strTrim (s : String) : String := String.mk (trimChars s.data)

/-- Python `str.upper` (ASCII). -/
def strUpper (s : String) : String := String.mk (s.data.map Char.toUpper)

/-- Python `str.lower` (ASCII). -/
def strLower (s : String) : String := String.mk (s.data.map Char.toLower)

/-- Python `needle in hay` substring test. -/
def strInfix (needle hay : String) : Bool := decide (needle.data <:+: hay.data)

/-- Python `hay.startswith(pre)`. -/
def strStartsWith (s pre : String) : Bool := decide (pre.data <+: s.data)

/-- Python `s.split(sep, 1)[1]`: everything after the first `'='`. -/
def afterFirstEq (cs : List Char) : List Char :=
  match cs.dropWhile (fun c => !(c == '=')) with
  | [] => []
  | _ :: rest => rest

/-- Python `s.split()`: split on runs of whitespace, no empty parts.
The accumulator holds the current token reversed. -/
def splitWsAux : List Char → List Char → List (List Char)
  | [], acc => if acc.isEmpty then [] else [acc.reverse]
  | c :: rest, acc =>
      if pyWs c then
        if acc.isEmpty then splitWsAux rest []
        else acc.reverse :: splitWsAux rest []
      else splitWsAux rest (c :: acc)

/-- Python `s.split()` (whitespace split). -/
def splitWs (cs : List Char) : List (List Char) := splitWsAux cs []

/-- Python `" ".join(pieces)`. -/
def joinSpace : List String → String
  | [] => ""
  | [s] => s
  | s :: rest => s ++ " " ++ joinSpace rest

/-- Python `s.replace(",", ".")` (both arguments are single characters, so
the replacement is a character map). -/
def commaToDot (s : String) : String :=
  String.mk (s.data.map (fun c => if c == ',' then '.' else c))

/-! ## Numeric-text conversion (the decimal fragment of Python `float()`) -/

/-- Value of a digit string (most significant first). -/
def digitsVal (cs : List Char) : Nat :=
  cs.foldl (fun a c => a * 10 + (c.toNat - 48)) 0

/-- `float()` on an unsigned decimal: digits with at most one point, at
least one digit overall (`"1"`, `"1.5"`, `"1."`, `".5"`). -/
def pyFloatUnsigned (cs : List Char) : Option ℚ :=
  match cs.splitOn '.' with
  | [ip] =>
      if ip.isEmpty || !ip.all Char.isDigit then none
      else some (digitsVal ip)
  | [ip, fp] =>
      if (ip.isEmpty && fp.isEmpty) || !ip.all Char.isDigit || !fp.all Char.isDigit then none
      else some ((digitsVal ip : ℚ) + (digitsVal fp : ℚ) / (10 : ℚ) ^ fp.length)
  | _ => none

/-- Models the decimal fragment of Python `float(s)`: optional sign, then
an unsigned decimal. Exponents, `inf`/`nan` and digit underscores are not
used by any MCC field and are not modelled. Returns `none` where `float`
raises `ValueError`. -/
def pyFloat? (s : String) : Option ℚ :=
  match s.data with
  | '+' :: rest => pyFloatUnsigned rest
  | '-' :: rest => (pyFloatUnsigned rest).map (fun q => -q)
  | cs => pyFloatUnsigned cs

/-- `_as_float` (src/plt_MCC.py, lines 184–198): convert text to a number,
accepting a decimal comma; `None` or unparseable text gives `None`. -/
def _as_float (txt : Option String) : Option ℚ :=
  match txt with
  | none => none
  | some s => pyFloat? (commaToDot (strTrim s))

/-! ## Header map and alias lookup -/

/-- A parsed MCC header: uppercased key → trimmed value, in insertion
order (Python `dict`). -/
abbrev Meta := List (String × String)

/-- `dict` lookup: value of the first pair whose key is `k`. -/
def metaGet (m : Meta) (k : String) : Option String :=
  (m.find? (fun p => p.1 == k)).map (fun p => p.2)

/-- `_pick` (lines 402–416): first value among `keys` that is present and
has non-blank text; the raw (untrimmed) stored value is returned. -/
def _pick (m : Meta) (keys : List String) : Option String :=
  match keys with
  | [] => none
  | k :: rest =>
      match metaGet m k with
      | some v => if strTrim v == "" then _pick m rest else some v
      | none => _pick m rest

/-! ## Profile parser (`parse_mcc_profiles_all`, lines 267–363) -/

/-- Curve orientation tag (`SCAN_CURVETYPE`). -/
inductive Orient where
  | inplane
  | crossplane
deriving DecidableEq, Repr

/-- One committed profile curve. -/
structure Curve where
  depth_mm : Option ℚ
  xs : List ℚ
  ys : List ℚ
deriving DecidableEq, Repr

/-- Parser state: current curve type and depth, in-data flag, the sample
buffers, and the curves committed so far per orientation. -/
structure PState where
  kind : Option Orient
  depth : Option ℚ
  inData : Bool
  xs : List ℚ
  ys : List ℚ
  inpl : List Curve
  cross : List Curve
deriving DecidableEq, Repr

/-- Initial parser state. -/
def initPState : PState :=
  { kind := none, depth := none, inData := false,
    xs := [], ys := [], inpl := [], cross := [] }

/-- The internal `commit` (lines 301–314): push the accumulated buffer as
a curve under the current orientation when both sequences are non-empty,
then clear the buffers. -/
def commit (st : PState) : PState :=
  let st' :=
    match st.kind with
    | some Orient.inplane =>
        if !st.xs.isEmpty && !st.ys.isEmpty then
          { st with inpl := st.inpl ++ [Curve.mk st.depth st.xs st.ys] }
        else st
    | some Orient.crossplane =>
        if !st.xs.isEmpty && !st.ys.isEmpty then
          { st with cross := st.cross ++ [Curve.mk st.depth st.xs st.ys] }
        else st
    | none => st
  { st' with xs := [], ys := [] }

/-- One iteration of the line loop (lines 316–355), mirroring the `elif`
chain on the stripped line. -/
def stepLine (st : PState) (raw : String) : PState :=
  let line := strTrim raw
  if strStartsWith line "SCAN_CURVETYPE=" then
    let st := if st.inData then { commit st with inData := false } else st
    let val := strUpper (strTrim (String.mk (afterFirstEq line.data)))
    if strInfix "INPLANE_PROFILE" val then { st with kind := some Orient.inplane }
    else if strInfix "CROSSPLANE_PROFILE" val then { st with kind := some Orient.crossplane }
    else { st with kind := none }
  else if strStartsWith line "SCAN_DEPTH=" then
    { st with depth := pyFloat? (strTrim (String.mk (afterFirstEq line.data))) }
  else if strInfix "BEGIN_DATA" line then
    { st with inData := true, xs := [], ys := [] }
  else if strInfix "END_DATA" line then
    if st.inData then { commit st with inData := false } else { st with inData := false }
  else if st.inData && !(st.kind == none) then
    match splitWs line.data with
    | p0 :: p1 :: _ =>
        match pyFloat? (String.mk p0) with
        | none => st
        | some x =>
            match pyFloat? (String.mk p1) with
            | none => { st with xs := st.xs ++ [x] }
            | some y => { st with xs := st.xs ++ [x], ys := st.ys ++ [y] }
    | _ => st
  else st

/-- `parse_mcc_profiles_all` on the file's lines: run the line loop, do
the final commit when still in-data, then keep only orientations that
committed at least one curve (lines 356–363). -/
def parse_mcc_profiles_all (lines : List String) : List (String × List Curve) :=
  let st := lines.foldl stepLine initPState
  let st := if st.inData then commit st else st
  (if st.inpl.isEmpty then [] else [("inplane", st.inpl)]) ++
    (if st.cross.isEmpty then [] else [("crossplane", st.cross)])

/-! ## Parameter derivation (`_energy_from`, SSD, jaws, FOV) -/

/-- The 100-unit reference distance (`DEFAULT_SAD_CM`, line 162). -/
def DEFAULT_SAD_CM : ℚ := 100

/-- `_energy_from` (lines 419–443): pick the energy text and append the
`FFF` suffix when the loose heuristic fires. -/
def _energy_from (meta : Meta) : Option String :=
  match _pick meta ["ENERGY", "SCAN_ENERGY", "BEAM_ENERGY", "XRAY_ENERGY"] with
  | none => none
  | some energy =>
      if energy == "" then none
      else
        let e := strTrim energy
        let upAll := strUpper (joinSpace (meta.map (fun p => p.1 ++ "=" ++ p.2)))
        let wantFff := strInfix "FFF" (strUpper e) || strInfix "FFF" upAll ||
          (strInfix "FLATTENING" upAll && (strInfix "OFF" upAll || strInfix "FREE" upAll))
        if !(strInfix "FFF" (strUpper e)) && wantFff then some (e ++ " FFF")
        else some e

/-- `_ssd_cm_from_mm` (lines 465–479): SSD alias lookup, mm → cm. -/
def _ssd_cm_from_mm (meta : Meta) : Option ℚ :=
  (_as_float (_pick meta ["SSD", "SCAN_SSD", "SOURCE_SURFACE_DISTANCE", "DSP"])).map
    (fun v => v / 10)

/-- `_jaws_from` (lines 536–590): raw jaw dimensions (cm) and the
reference-plane distance resolved by the documented priority chain. -/
def _jaws_from (meta : Meta) (depth_mm_for_guess : Option ℚ) :
    Option ℚ × Option ℚ × Option ℚ :=
  let jawx0 := _as_float (_pick meta ["JAW_X", "FIELD_X", "COLL_X"])
  let jawy0 := _as_float (_pick meta ["JAW_Y", "FIELD_Y", "COLL_Y"])
  let jaws :=
    if jawx0 == none || jawy0 == none then
      match _as_float (_pick meta ["FIELD_INPLANE", "FIELD_INPLANE"]),
            _as_float (_pick meta ["FIELD_CROSSPLANE", "FIELD_CROSSPLANE"]) with
      | some rx, some ry => (some (rx / 10), some (ry / 10))
      | _, _ => (jawx0, jawy0)
    else (jawx0, jawy0)
  let ssd := _ssd_cm_from_mm meta
  let refdef :=
    strUpper (strTrim ((_pick meta ["FIELD_DEFINED", "FIELD_REFERENCE", "FIELD_AT"]).getD ""))
  let refDepth := (_as_float (_pick meta ["FIELD_DEPTH"])).map (fun v => v / 10)
  let dref1 : Option ℚ :=
    if strInfix "ISO" refdef || strInfix "ISOCENTER" refdef || strInfix "SAD" refdef then
      some DEFAULT_SAD_CM
    else
      match ssd, refDepth with
      | some s, some rd =>
          if strInfix "SSD" refdef then some s
          else if strInfix "DEPTH" refdef then some (s + rd)
          else none
      | some s, none => if strInfix "SSD" refdef then some s else none
      | none, _ => none
  let dref : Option ℚ :=
    match dref1 with
    | some d => some d
    | none =>
        match ssd, depth_mm_for_guess with
        | some s, some dmm => some (s + dmm / 10)
        | some s, none => some s
        | none, _ => none
  (jaws.1, jaws.2, dref)

/-- `_scale_jaw_to_100` (lines 590–603): rescale a jaw dimension to the
100-unit plane; unknown or zero reference distance returns the raw value
unchanged. -/
def _scale_jaw_to_100 (jaw_raw_cm : Option ℚ) (d_ref_cm : Option ℚ) : Option ℚ :=
  match jaw_raw_cm, d_ref_cm with
  | none, _ => none
  | some j, none => some j
  | some j, some d => if d = 0 then some j else some (j * (DEFAULT_SAD_CM / d))

/-- `_fov_at_depth_pair` (lines 621–642): field of view `(fx, fy)` at
`depth_cm`, or `none` when SSD or a 100-unit-plane jaw is unavailable. -/
def _fov_at_depth_pair (meta : Meta) (depth_cm : ℚ) : Option (ℚ × ℚ) :=
  match _ssd_cm_from_mm meta with
  | none => none
  | some ssd_cm =>
      let jd := _jaws_from meta (some (depth_cm * 10))
      match _scale_jaw_to_100 jd.1 jd.2.2, _scale_jaw_to_100 jd.2.1 jd.2.2 with
      | some jawx100, some jawy100 =>
          some (jawx100 * (ssd_cm + depth_cm) / DEFAULT_SAD_CM,
                jawy100 * (ssd_cm + depth_cm) / DEFAULT_SAD_CM)
      | _, _ => none

/-! ## Curve selection (`match_depths`, lines 1808–1827) -/

/-- `match_depths`: keep the `(xs, ys)` of every curve whose native-unit
depth, converted to cm, lies within `0.05` cm of the target. -/
def match_depths (seq : List Curve) (target_cm : ℚ) : List (List ℚ × List ℚ) :=
  match seq with
  | [] => []
  | e :: rest =>
      match e.depth_mm with
      | none => match_depths rest target_cm
      | some dmm =>
          if |dmm / 10 - target_cm| ≤ 1/20 then
            (e.xs, e.ys) :: match_depths rest target_cm
          else match_depths rest target_cm

/-! ## Style allocator (`_next_from_pool`, `_get_color_for`,
`_get_marker_for`, lines 1157–1222) -/

/-- `OKABE_ITO` (lines 128–131): the 8 fixed colors. -/
def OKABE_ITO : List String :=
  ["#0072B2", "#E69F00", "#009E73", "#D55E00",
   "#CC79A7", "#56B4E9", "#F0E442", "#000000"]

/-- `MARKER_POOL` (line 132): the 13 fixed marker symbols. -/
def MARKER_POOL : List String :=
  ["o", "s", "^", "v", "d", "p", "h", "x", "*", "+", "<", ">", "."]

/-- One namespaced value → symbol map, in insertion order. -/
abbrev NsMap := List (String × String)

/-- The color (resp. marker) maps: namespace → `NsMap`. -/
abbrev StyleMaps := List (String × NsMap)

/-- Map of one namespace (Python `maps.setdefault(key, {})` semantics:
absent namespaces read as the empty map). -/
def lookupNs (maps : StyleMaps) (key : String) : NsMap :=
  ((maps.find? (fun p => p.1 == key)).map (fun p => p.2)).getD []

/-- Store an updated namespace map, keeping insertion order; a new
namespace is appended at the end (Python `dict` update). -/
def updNs (maps : StyleMaps) (key : String) (nm : NsMap) : StyleMaps :=
  match maps with
  | [] => [(key, nm)]
  | (k, m) :: rest => if k == key then (key, nm) :: rest else (k, m) :: updNs rest key nm

/-- `_normalize_key` (lines 1147–1155): trim and case-fold. -/
def normalizeKey (text : String) : String := strLower (strTrim text)

/-- `_next_from_pool` (lines 1157–1173). `used` is the set of symbols
already assigned in the namespace, modelled as the deduplicated value
list, so `used.length` is the Python `len(used_set)`. -/
def _next_from_pool (used : List String) (pool : List String) : String :=
  match pool.find? (fun v => !(used.contains v)) with
  | some v => v
  | none => pool.getD (used.length % max 1 pool.length) ""

/-- `_get_color_for` (lines 1175–1197), with the persisted color maps as
explicit state: returns the symbol and the updated maps. -/
def _get_color_for (maps : StyleMaps) (param_name value : String) : String × StyleMaps :=
  let key := if param_name == "" then "default" else param_name
  let norm_val := normalizeKey value
  let param_map := lookupNs maps key
  match param_map.find? (fun p => p.1 == norm_val) with
  | some p => (p.2, maps)
  | none =>
      let used := (param_map.map (fun p => p.2)).dedup
      let sym := _next_from_pool used OKABE_ITO
      (sym, updNs maps key (param_map ++ [(norm_val, sym)]))

/-- `_get_marker_for` (lines 1199–1222): empty namespace short-circuits
to `"o"` without touching the store. -/
def _get_marker_for (maps : StyleMaps) (param_name value : String) : String × StyleMaps :=
  if param_name == "" then ("o", maps)
  else
    let norm_val := normalizeKey value
    let param_map := lookupNs maps param_name
    match param_map.find? (fun p => p.1 == norm_val) with
    | some p => (p.2, maps)
    | none =>
        let used := (param_map.map (fun p => p.2)).dedup
        let sym := _next_from_pool used MARKER_POOL
        (sym, updNs maps param_name (param_map ++ [(norm_val, sym)]))

/-! ## Spec-side helpers and concrete examples used by the theorems -/

/-- The store key a color namespace resolves to: the empty namespace is
stored under `"default"` (`param_name or "default"`, line 1188). -/
def colorNsKey (ns : String) : String := if ns == "" then "default" else ns

/-- Depth selection predicate as the spec states it: the curve has a
depth and it lies within 0.05 cm of the target once converted. -/
def depthNear (target_cm : ℚ) (c : Curve) : Bool :=
  match c.depth_mm with
  | none => false
  | some dmm => decide (|dmm / 10 - target_cm| ≤ 1/20)

/-- Header for the FOV example: SSD 900 mm, jaws 10 cm defined at the
isocenter. -/
def c4_meta : Meta := [("SSD", "900"), ("JAW_X", "10"), ("JAW_Y", "10"), ("FIELD_DEFINED", "ISO")]

/-- Header whose energy lacks `FFF` but whose serial number contains it. -/
def c3_meta : Meta := [("ENERGY", "6"), ("SERIAL", "XFFF2")]

/-- A profile file whose data block contains the line `"1.5 abc"`: the
first token is numeric, the second is not. -/
def c2_lines : List String :=
  ["SCAN_CURVETYPE=INPLANE_PROFILE", "SCAN_DEPTH=100", "BEGIN_DATA",
   "1.5 abc", "2 3", "END_DATA"]

/-- A minimal well-formed one-curve profile file. -/
def c6_lines : List String :=
  ["SCAN_CURVETYPE=INPLANE_PROFILE", "BEGIN_DATA", "1 2", "END_DATA"]

/-- Nine distinct values: one more than the color pool holds. -/
def c1_names : List String :=
  ["v0", "v1", "v2", "v3", "v4", "v5", "v6", "v7", "v8"]

/-- Color maps after nine allocations in namespace `"e"`: the eighth
exhausts the pool and the ninth is already a forced reuse. -/
def c1_state : StyleMaps :=
  c1_names.foldl (fun m v => (_get_color_for m "e" v).2) []

/-- Color maps after allocating value `"6"` in namespace `"energy"`. -/
def c7_m1 : StyleMaps := (_get_color_for [] "energy" "6").2

/-- ... and then value `"5"` in namespace `"fov@depth"`. -/
def c7_m2 : StyleMaps := (_get_color_for c7_m1 "fov@depth" "5").2

/-- Every curve in the list has at least one x and one y sample. -/
def curvesOk (l : List Curve) : Prop := ∀ c ∈ l, c.xs ≠ [] ∧ c.ys ≠ []

/-- Parser invariant: every committed curve is non-empty. -/
def invOk (st : PState) : Prop := curvesOk st.inpl ∧ curvesOk st.cross

/-! ## General lemmas about the string helpers -/

lemma dropWhile_idem (p : α → Bool) (l : List α) :
    (l.dropWhile p).dropWhile p = l.dropWhile p := by
  induction l with
  | nil => rfl
  | cons c t ih =>
      cases h : p c with
      | true => simp [List.dropWhile_cons, h, ih]
      | false => simp [List.dropWhile_cons, h]

lemma head_dropWhile_false (p : α → Bool) (l : List α) :
    ∀ {c : α} {t : List α}, l.dropWhile p = c :: t → p c = false := by
  induction l with
  | nil => intro c t h; cases h
  | cons a l ih =>
      intro c t h
      cases hp : p a with
      | true => exact ih (by simpa [List.dropWhile_cons, hp] using h)
      | false =>
          simp [List.dropWhile_cons, hp] at h
          rw [← h.1]; exact hp

lemma trimChars_prefix_dropWhile (cs : List Char) :
    trimChars cs <+: cs.dropWhile pyWs := by
  have h := List.reverse_prefix.mpr (List.dropWhile_suffix (l := (cs.dropWhile pyWs).reverse) pyWs)
  rw [List.reverse_reverse] at h
  exact h

lemma dropWhile_trimChars (cs : List Char) :
    (trimChars cs).dropWhile pyWs = trimChars cs := by
  cases h : trimChars cs with
  | nil => rfl
  | cons c t =>
      have hpre := trimChars_prefix_dropWhile cs
      rw [h] at hpre
      obtain ⟨u, hu⟩ := hpre
      have heq : cs.dropWhile pyWs = c :: (t ++ u) := by rw [← hu]; rfl
      have hc : pyWs c = false := head_dropWhile_false pyWs cs heq
      simp [List.dropWhile_cons, hc]

lemma trimChars_idem (cs : List Char) :
    trimChars (trimChars cs) = trimChars cs := by
  show (((trimChars cs).dropWhile pyWs).reverse.dropWhile pyWs).reverse = trimChars cs
  rw [dropWhile_trimChars]
  show ((((cs.dropWhile pyWs).reverse.dropWhile pyWs).reverse).reverse.dropWhile pyWs).reverse
      = trimChars cs
  rw [List.reverse_reverse, dropWhile_idem]
  rfl

lemma pyWs_commaSwap (c : Char) :
    pyWs (if c == ',' then '.' else c) = pyWs c := by
  cases hc : c == ',' with
  | true =>
      have hcc : c = ',' := eq_of_beq hc
      subst hcc
      decide
  | false => simp [hc]

lemma commaSwap_commaSwap (c : Char) :
    (if ((if c == ',' then '.' else c) == ',') = true then '.'
     else (if c == ',' then '.' else c)) = (if c == ',' then '.' else c) := by
  cases hc : c == ',' with
  | true => simp [hc]
  | false => simp [hc]

lemma trimChars_map_comm (g : Char → Char) (hg : ∀ c, pyWs (g c) = pyWs c) (cs : List Char) :
    trimChars (cs.map g) = (trimChars cs).map g := by
  have hfun : pyWs ∘ g = pyWs := funext hg
  have hdw : ∀ l : List Char, (l.map g).dropWhile pyWs = (l.dropWhile pyWs).map g := by
    intro l
    rw [List.dropWhile_map, hfun]
  show (((cs.map g).dropWhile pyWs).reverse.dropWhile pyWs).reverse = _
  rw [hdw, ← List.map_reverse, hdw, ← List.map_reverse]
  rfl

lemma strTrim_strTrim (s : String) : strTrim (strTrim s) = strTrim s :=
  congrArg String.mk (trimChars_idem s.data)

lemma strTrim_commaToDot (s : String) :
    strTrim (commaToDot s) = commaToDot (strTrim s) :=
  congrArg String.mk (trimChars_map_comm _ pyWs_commaSwap s.data)

lemma commaToDot_commaToDot (s : String) :
    commaToDot (commaToDot s) = commaToDot s := by
  have h : ∀ l : List Char,
      (l.map (fun c => if c == ',' then '.' else c)).map (fun c => if c == ',' then '.' else c)
        = l.map (fun c => if c == ',' then '.' else c) := by
    intro l
    rw [List.map_map]
    congr 1
    funext c
    exact commaSwap_commaSwap c
  exact congrArg String.mk (h s.data)

lemma string_data_mk (l : List Char) : (String.mk l).data = l := rfl

lemma infix_joinSpace (ss : List String) (s : String) (h : s ∈ ss) :
    s.data <:+: (joinSpace ss).data := by
  induction ss with
  | nil => cases h
  | cons a rest ih =>
      cases rest with
      | nil =>
          simp at h
          subst h
          exact List.infix_refl _
      | cons b tl =>
          rcases List.mem_cons.mp h with h | h
          · subst h
            show s.data <:+: (s ++ " " ++ joinSpace (b :: tl)).data
            rw [String.data_append, String.data_append]
            exact ((List.prefix_append s.data _).isInfix).trans
              (List.prefix_append _ _).isInfix
          · have := ih h
            show s.data <:+: (a ++ " " ++ joinSpace (b :: tl)).data
            rw [String.data_append]
            exact this.trans (List.suffix_append _ _).isInfix

/-! ## Lemmas about `_pick`, the style maps and the pool -/

lemma pick_mem {m : Meta} {keys : List String} {v : String}
    (h : _pick m keys = some v) : ∃ k, (k, v) ∈ m := by
  induction keys with
  | nil => cases h
  | cons k rest ih =>
      cases hget : metaGet m k with
      | none => simp only [_pick, hget] at h; exact ih h
      | some w =>
          simp only [_pick, hget] at h
          by_cases hb : (strTrim w == "") = true
          · rw [if_pos hb] at h; exact ih h
          · rw [if_neg hb] at h
            have hv : w = v := by injection h
            subst hv
            obtain ⟨pr, hfind, hw⟩ :
                ∃ pr, m.find? (fun p => p.1 == k) = some pr ∧ pr.2 = w := by
              unfold metaGet at hget
              cases hfind : m.find? (fun p => p.1 == k) with
              | none => rw [hfind] at hget; cases hget
              | some pr =>
                  rw [hfind] at hget
                  exact ⟨pr, rfl, by injection hget⟩
            refine ⟨pr.1, ?_⟩
            rw [← hw]
            simpa using List.mem_of_find?_eq_some hfind

lemma pick_not_blank {m : Meta} {keys : List String} {v : String}
    (h : _pick m keys = some v) : (strTrim v == "") = false := by
  induction keys with
  | nil => cases h
  | cons k rest ih =>
      cases hget : metaGet m k with
      | none => simp only [_pick, hget] at h; exact ih h
      | some w =>
          simp only [_pick, hget] at h
          by_cases hb : (strTrim w == "") = true
          · rw [if_pos hb] at h; exact ih h
          · rw [if_neg hb] at h
            obtain rfl : w = v := by injection h
            simpa using hb

lemma lookupNs_updNs_self (maps : StyleMaps) (key : String) (nm : NsMap) :
    lookupNs (updNs maps key nm) key = nm := by
  induction maps with
  | nil => simp [updNs, lookupNs, List.find?]
  | cons p rest ih =>
      obtain ⟨k, m⟩ := p
      rw [updNs]
      cases hk : k == key with
      | true => simp [lookupNs, List.find?]
      | false =>
          rw [if_neg (by simp [hk])]
          rw [lookupNs, List.find?]
          have : (k == key) = false := hk
          simp only [this]
          exact ih

lemma find?_updNs_ne (maps : StyleMaps) (key key' : String) (nm : NsMap)
    (hkk : (key == key') = false) :
    (updNs maps key nm).find? (fun p => p.1 == key') = maps.find? (fun p => p.1 == key') := by
  induction maps with
  | nil => simp [updNs, List.find?, hkk]
  | cons p rest ih =>
      obtain ⟨k, m⟩ := p
      rw [updNs]
      cases hk : k == key with
      | true =>
          rw [if_pos rfl]
          have hke : k = key := eq_of_beq hk
          subst hke
          simp [List.find?, hkk]
      | false =>
          rw [if_neg (by simp [hk])]
          rw [List.find?, List.find?]
          cases hk' : k == key' with
          | true => simp
          | false => simpa [hk'] using ih

lemma lookupNs_updNs_ne (maps : StyleMaps) (key key' : String) (nm : NsMap)
    (h : key' ≠ key) : lookupNs (updNs maps key nm) key' = lookupNs maps key' := by
  have hkk : (key == key') = false := by
    cases hb : key == key' with
    | true => exact absurd (eq_of_beq hb).symm h
    | false => rfl
  unfold lookupNs
  rw [find?_updNs_ne maps key key' nm hkk]

lemma next_from_pool_exhausted (pm : NsMap) (pool : List String)
    (hpool : pool ≠ []) (hnd : pool.Nodup)
    (h1 : ∀ c ∈ pool, c ∈ pm.map (fun p => p.2))
    (h2 : ∀ s ∈ pm.map (fun p => p.2), s ∈ pool) :
    _next_from_pool ((pm.map (fun p => p.2)).dedup) pool = pool.getD 0 "" := by
  have hfind : pool.find? (fun v => !(((pm.map (fun p => p.2)).dedup).contains v)) = none := by
    rw [List.find?_eq_none]
    intro x hx
    simp only [Bool.not_eq_true', Bool.not_not]
    have : x ∈ (pm.map (fun p => p.2)).dedup := List.mem_dedup.mpr (h1 x hx)
    simpa [List.contains] using this
  have hperm : List.Perm ((pm.map (fun p => p.2)).dedup) pool :=
    (List.perm_ext_iff_of_nodup (List.nodup_dedup _) hnd).mpr
      (fun a => ⟨fun h => h2 a (List.mem_dedup.mp h), fun h => List.mem_dedup.mpr (h1 a h)⟩)
  rw [_next_from_pool, hfind, hperm.length_eq]
  have hlen : 0 < pool.length := List.length_pos.mpr hpool
  rw [Nat.max_eq_right hlen, Nat.mod_self]

/-! ## Parser invariant: committed curves are never empty -/

lemma curvesOk_append {l : List Curve} {c : Curve} (h : curvesOk l)
    (hx : c.xs ≠ []) (hy : c.ys ≠ []) : curvesOk (l ++ [c]) := by
  intro d hd
  rcases List.mem_append.mp hd with h1 | h1
  · exact h d h1
  · have : d = c := by simpa using h1
    subst this
    exact ⟨hx, hy⟩

lemma invOk_commit {st : PState} (h : invOk st) : invOk (commit st) := by
  obtain ⟨h1, h2⟩ := h
  unfold commit
  cases hk : st.kind with
  | none => exact ⟨h1, h2⟩
  | some o =>
      cases o with
      | inplane =>
          by_cases hcnd : (!st.xs.isEmpty && !st.ys.isEmpty) = true
          · have hx : st.xs ≠ [] := by
              intro hnil
              simp [hnil] at hcnd
            have hy : st.ys ≠ [] := by
              intro hnil
              simp [hnil] at hcnd
            simp only [hcnd, if_true]
            exact ⟨curvesOk_append h1 hx hy, h2⟩
          · simp only [hcnd, if_false]
            exact ⟨h1, h2⟩
      | crossplane =>
          by_cases hcnd : (!st.xs.isEmpty && !st.ys.isEmpty) = true
          · have hx : st.xs ≠ [] := by
              intro hnil
              simp [hnil] at hcnd
            have hy : st.ys ≠ [] := by
              intro hnil
              simp [hnil] at hcnd
            simp only [hcnd, if_true]
            exact ⟨h1, curvesOk_append h2 hx hy⟩
          · simp only [hcnd, if_false]
            exact ⟨h1, h2⟩

lemma invOk_stepLine {st : PState} (raw : String) (h : invOk st) :
    invOk (stepLine st raw) := by
  have hc := invOk_commit h
  simp only [stepLine]
  repeat' split
  all_goals first
    | exact h
    | exact hc

lemma invOk_foldl (lines : List String) :
    ∀ st : PState, invOk st → invOk (lines.foldl stepLine st) := by
  induction lines with
  | nil => intro st h; exact h
  | cons l rest ih => intro st h; exact ih _ (invOk_stepLine l h)

/-! ## Claim theorems -/

/-- C6: the profile parser never emits a curve with zero samples — a data
block in which no line yields a valid sample contributes no curve, and an
orientation with no committed curves is absent from the returned mapping
rather than present with an empty list. -/
theorem C6_no_empty_curves (lines : List String) (p : String × List Curve)
    (hp : p ∈ parse_mcc_profiles_all lines) :
    p.2 ≠ [] ∧ ∀ c ∈ p.2, c.xs ≠ [] ∧ c.ys ≠ [] := by
  have h0 : invOk (lines.foldl stepLine initPState) :=
    invOk_foldl lines initPState (by constructor <;> intro c hc <;> cases hc)
  have h1 : invOk (if (lines.foldl stepLine initPState).inData
      then commit (lines.foldl stepLine initPState)
      else (lines.foldl stepLine initPState)) := by
    split
    · exact invOk_commit h0
    · exact h0
  obtain ⟨hi, hx⟩ := h1
  have hp' : p ∈
      (if (if (lines.foldl stepLine initPState).inData
            then commit (lines.foldl stepLine initPState)
            else (lines.foldl stepLine initPState)).inpl.isEmpty then []
        else [("inplane",
          (if (lines.foldl stepLine initPState).inData
            then commit (lines.foldl stepLine initPState)
            else (lines.foldl stepLine initPState)).inpl)]) ++
      (if (if (lines.foldl stepLine initPState).inData
            then commit (lines.foldl stepLine initPState)
            else (lines.foldl stepLine initPState)).cross.isEmpty then []
        else [("crossplane",
          (if (lines.foldl stepLine initPState).inData
            then commit (lines.foldl stepLine initPState)
            else (lines.foldl stepLine initPState)).cross)]) := hp
  rcases List.mem_append.mp hp' with h | h
  · by_cases he : (if (lines.foldl stepLine initPState).inData
        then commit (lines.foldl stepLine initPState)
        else (lines.foldl stepLine initPState)).inpl.isEmpty
    · rw [if_pos he] at h; cases h
    · rw [if_neg he] at h
      have hpe : p = ("inplane", (if (lines.foldl stepLine initPState).inData
          then commit (lines.foldl stepLine initPState)
          else (lines.foldl stepLine initPState)).inpl) := by simpa using h
      subst hpe
      exact ⟨by simpa [List.isEmpty_iff] using he, hi⟩
  · by_cases he : (if (lines.foldl stepLine initPState).inData
        then commit (lines.foldl stepLine initPState)
        else (lines.foldl stepLine initPState)).cross.isEmpty
    · rw [if_pos he] at h; cases h
    · rw [if_neg he] at h
      have hpe : p = ("crossplane", (if (lines.foldl stepLine initPState).inData
          then commit (lines.foldl stepLine initPState)
          else (lines.foldl stepLine initPState)).cross) := by simpa using h
      subst hpe
      exact ⟨by simpa [List.isEmpty_iff] using he, hx⟩

/-- C6 witness: a concrete file with one well-formed one-sample curve,
instantiating the theorem at its parsed output. -/
theorem C6_no_empty_curves_witness :
    ("inplane", [Curve.mk none [1] [2]]) ∈ parse_mcc_profiles_all c6_lines
    ∧ ([Curve.mk none [1] [2]] : List Curve) ≠ []
    ∧ ∀ c ∈ ([Curve.mk none [1] [2]] : List Curve), c.xs ≠ [] ∧ c.ys ≠ [] := by
  have hmem : ("inplane", [Curve.mk none [1] [2]]) ∈ parse_mcc_profiles_all c6_lines := by
    with_unfolding_all decide
  have h := C6_no_empty_curves c6_lines ("inplane", [Curve.mk none [1] [2]]) hmem
  exact ⟨hmem, h.1, h.2⟩

/-- C2: the claim that committed curves have equal-length x/y sequences
containing exactly the tokens of well-formed sample lines fails on the
code: on the line `"1.5 abc"` the x token is appended before the y
conversion raises, so the committed curve has two x samples but one y
sample. -/
theorem C2_malformed_sample_line_partially_committed :
    parse_mcc_profiles_all c2_lines
      = [("inplane", [Curve.mk (some 100) [3/2, 2] [3]])]
    ∧ ((parse_mcc_profiles_all c2_lines).map
        (fun p => (p.1, p.2.map (fun c => (c.xs.length, c.ys.length)))))
      = [("inplane", [(2, 1)])] := by
  constructor
  · with_unfolding_all decide
  · with_unfolding_all decide

/-- C5: `match_depths` keeps exactly the curves (in order) whose
native-unit depth divided by 10 is within 0.05 of the target; in
particular a 10.0 cm target matches a 100.03 mm curve but not a
100.6 mm one. -/
theorem C5_depth_match_tolerance :
    (∀ (seq : List Curve) (t : ℚ),
      match_depths seq t = (seq.filter (depthNear t)).map (fun c => (c.xs, c.ys)))
    ∧ match_depths
        [Curve.mk (some (10003/100)) [1] [2], Curve.mk (some (1006/10)) [3] [4]] 10
      = [([1], [2])] := by
  constructor
  · intro seq t
    induction seq with
    | nil => rfl
    | cons e rest ih =>
        cases hd : e.depth_mm with
        | none => simp [match_depths, List.filter_cons, depthNear, hd, ih]
        | some dmm =>
            by_cases hle : |dmm / 10 - t| ≤ 1/20
            · simp only [match_depths, hd, if_pos hle, List.filter_cons, depthNear,
                decide_eq_true_eq, hle, List.map_cons, ih]
              simp
            · simp only [match_depths, hd, if_neg hle, List.filter_cons, depthNear,
                decide_eq_true_eq, hle, List.map_cons, ih]
              simp [hle]
  · with_unfolding_all decide

/-- C9: rescaling a jaw dimension to the 100-unit plane is guarded — an
unknown or zero reference distance returns the raw dimension unchanged,
and otherwise the result is `raw * (100 / ref)`. -/
theorem C9_scale_jaw_guarded :
    (∀ jaw : Option ℚ, _scale_jaw_to_100 jaw none = jaw)
    ∧ (∀ jaw : Option ℚ, _scale_jaw_to_100 jaw (some 0) = jaw)
    ∧ (∀ (j d : ℚ), d ≠ 0 →
        _scale_jaw_to_100 (some j) (some d) = some (j * (100 / d))) := by
  refine ⟨?_, ?_, ?_⟩
  · intro jaw; cases jaw <;> rfl
  · intro jaw
    cases jaw with
    | none => rfl
    | some j => simp [_scale_jaw_to_100]
  · intro j d hd
    simp [_scale_jaw_to_100, hd, DEFAULT_SAD_CM]

/-- C9 witness: the scaled branch at `5 * (100 / 50)` and the guarded
branch at an unknown reference distance. -/
theorem C9_scale_jaw_guarded_witness :
    _scale_jaw_to_100 (some 5) (some 50) = some (5 * (100 / 50))
    ∧ _scale_jaw_to_100 (some 5) none = some 5 :=
  ⟨C9_scale_jaw_guarded.2.2 5 50 (by norm_num), C9_scale_jaw_guarded.1 (some 5)⟩

/-- C10: the shared numeric-text converter maps `None` to an absent
result, is invariant under pre-stripping whitespace and pre-replacing
decimal commas (so both happen before conversion), parses `"1,5"` (also
with surrounding whitespace) as 1.5, and returns an absent result — never
an error — for any text that still fails to parse. -/
theorem C10_as_float_decimal_comma :
    _as_float none = none
    ∧ (∀ s : String, _as_float (some s) = _as_float (some (commaToDot (strTrim s))))
    ∧ _as_float (some "1,5") = some (3/2)
    ∧ _as_float (some " 1,5\t") = some (3/2)
    ∧ (∀ s : String, pyFloat? (commaToDot (strTrim s)) = none → _as_float (some s) = none) := by
  refine ⟨rfl, ?_, ?_, ?_, ?_⟩
  · intro s
    show pyFloat? (commaToDot (strTrim s))
        = pyFloat? (commaToDot (strTrim (commaToDot (strTrim s))))
    rw [strTrim_commaToDot, strTrim_strTrim, commaToDot_commaToDot]
  · with_unfolding_all decide
  · with_unfolding_all decide
  · intro s h
    exact h

/-- C10 witness: the failure clause applied to the unparseable text
`"abc"`. -/
theorem C10_as_float_decimal_comma_witness :
    _as_float (some "abc") = none :=
  C10_as_float_decimal_comma.2.2.2.2 "abc" (by with_unfolding_all decide)

/-- C4: the field of view at depth `D` is `jaw100 * (SSD + D) / 100` per
axis, where `jaw100` is the jaw dimension rescaled to the 100-unit plane
with the reference plane re-resolved using `D` as the depth hint, and the
result is absent whenever SSD or either rescaled jaw is unavailable. -/
theorem C4_fov_formula :
    (∀ (meta : Meta) (D : ℚ), _ssd_cm_from_mm meta = none →
      _fov_at_depth_pair meta D = none)
    ∧ (∀ (meta : Meta) (D ssd jx jy : ℚ),
        _ssd_cm_from_mm meta = some ssd →
        _scale_jaw_to_100 (_jaws_from meta (some (D * 10))).1
          (_jaws_from meta (some (D * 10))).2.2 = some jx →
        _scale_jaw_to_100 (_jaws_from meta (some (D * 10))).2.1
          (_jaws_from meta (some (D * 10))).2.2 = some jy →
        _fov_at_depth_pair meta D = some (jx * (ssd + D) / 100, jy * (ssd + D) / 100))
    ∧ (∀ (meta : Meta) (D : ℚ),
        (_scale_jaw_to_100 (_jaws_from meta (some (D * 10))).1
            (_jaws_from meta (some (D * 10))).2.2 = none
         ∨ _scale_jaw_to_100 (_jaws_from meta (some (D * 10))).2.1
            (_jaws_from meta (some (D * 10))).2.2 = none) →
        _fov_at_depth_pair meta D = none) := by
  refine ⟨?_, ?_, ?_⟩
  · intro meta D h
    simp [_fov_at_depth_pair, h]
  · intro meta D ssd jx jy h1 h2 h3
    simp [_fov_at_depth_pair, h1, h2, h3, DEFAULT_SAD_CM]
  · intro meta D h
    cases hs : _ssd_cm_from_mm meta with
    | none => simp [_fov_at_depth_pair, hs]
    | some ssd =>
        rcases h with h | h
        · simp [_fov_at_depth_pair, hs, h]
        · cases h2 : _scale_jaw_to_100 (_jaws_from meta (some (D * 10))).1
              (_jaws_from meta (some (D * 10))).2.2 with
          | none => simp [_fov_at_depth_pair, hs, h2]
          | some jx => simp [_fov_at_depth_pair, hs, h2, h]

/-- C4 witness: SSD 900 mm (90 cm), jaws (10, 10) cm at the isocenter,
depth 10 cm: the theorem's formula branch gives (10.00, 10.00). -/
theorem C4_fov_formula_witness :
    _fov_at_depth_pair c4_meta 10 = some (10, 10) := by
  have h := C4_fov_formula.2.1 c4_meta 10 90 10 10
    (by with_unfolding_all decide)
    (by with_unfolding_all decide)
    (by with_unfolding_all decide)
  rw [h]
  norm_num

/-- C3: for a header mapping (trimmed values) with a populated energy
key, if the energy text does not contain `FFF` (case-insensitively) and
some header `key=value` text contains `FFF`, the derived energy is the
energy text with `" FFF"` appended; an energy text already containing
`FFF` is returned unchanged, with no second suffix. -/
theorem C3_energy_fff_suffix :
    ∀ (meta : Meta) (energy : String),
      (∀ p ∈ meta, strTrim p.2 = p.2) →
      _pick meta ["ENERGY", "SCAN_ENERGY", "BEAM_ENERGY", "XRAY_ENERGY"] = some energy →
      ((strInfix "FFF" (strUpper energy) = false →
        (∃ p ∈ meta, strInfix "FFF" (strUpper (p.1 ++ "=" ++ p.2)) = true) →
        _energy_from meta = some (energy ++ " FFF"))
      ∧ (strInfix "FFF" (strUpper energy) = true →
        _energy_from meta = some energy)) := by
  intro meta energy htrim hpick
  have hE : strTrim energy = energy := by
    obtain ⟨k, hk⟩ := pick_mem hpick
    exact htrim (k, energy) hk
  have hne : (energy == "") = false := by
    have hb := pick_not_blank hpick
    rw [hE] at hb
    exact hb
  constructor
  · intro h1 h2
    obtain ⟨p, hp, hFFF⟩ := h2
    have hup : strInfix "FFF"
        (strUpper (joinSpace (meta.map (fun q => q.1 ++ "=" ++ q.2)))) = true := by
      have h3 : (p.1 ++ "=" ++ p.2).data
          <:+: (joinSpace (meta.map (fun q => q.1 ++ "=" ++ q.2))).data :=
        infix_joinSpace _ _ (List.mem_map_of_mem _ hp)
      have h4 : "FFF".data <:+: ((p.1 ++ "=" ++ p.2).data.map Char.toUpper) :=
        of_decide_eq_true hFFF
      have h5 := h3.map Char.toUpper
      exact decide_eq_true (h4.trans h5)
    simp only [_energy_from, hpick, hne, Bool.false_eq_true, if_false, hE, h1, hup,
      Bool.not_false, Bool.false_or, Bool.true_or, Bool.and_true, Bool.true_and, if_true]
  · intro h1'
    simp [_energy_from, hpick, hne, hE, h1']

/-- C3 witness: energy `"6"` with a serial number containing `FFF`
derives `"6 FFF"`. -/
theorem C3_energy_fff_suffix_witness :
    _energy_from c3_meta = some ("6" ++ " FFF") :=
  (C3_energy_fff_suffix c3_meta "6" (by with_unfolding_all decide)
      (by with_unfolding_all decide)).1
    (by with_unfolding_all decide)
    ⟨("SERIAL", "XFFF2"), by with_unfolding_all decide, by with_unfolding_all decide⟩

/-- C8: allocation is idempotent — a second call with the same namespace
and a value with the same normalized key returns the symbol of the first
call and leaves the maps unchanged, for colors and for markers. -/
theorem C8_style_allocation_idempotent :
    ∀ (maps : StyleMaps) (ns v v' : String), normalizeKey v' = normalizeKey v →
      _get_color_for ((_get_color_for maps ns v).2) ns v' = _get_color_for maps ns v
      ∧ _get_marker_for ((_get_marker_for maps ns v).2) ns v' = _get_marker_for maps ns v := by
  intro maps ns v v' h
  constructor
  · obtain ⟨key, hkey⟩ : ∃ key, (if ns == "" then "default" else ns) = key := ⟨_, rfl⟩
    simp only [_get_color_for, h, hkey]
    cases hfind : (lookupNs maps key).find? (fun p => p.1 == normalizeKey v) with
    | some pr => simp [hfind]
    | none =>
        simp only [hfind]
        rw [lookupNs_updNs_self, List.find?_append, hfind]
        simp [List.find?]
  · simp only [_get_marker_for, h]
    cases hns : ns == "" with
    | true => simp [hns]
    | false =>
        simp only [hns, Bool.false_eq_true, if_false]
        cases hfind : (lookupNs maps ns).find? (fun p => p.1 == normalizeKey v) with
        | some pr => simp [hfind]
        | none =>
            simp only [hfind]
            rw [lookupNs_updNs_self, List.find?_append, hfind]
            simp [List.find?]

/-- C8 witness: allocating `"6"` then `" 6 "` (same normalized key) in
namespace `"energy"` returns the same pair. -/
theorem C8_style_allocation_idempotent_witness :
    _get_color_for ((_get_color_for [] "energy" "6").2) "energy" " 6 "
      = _get_color_for [] "energy" "6"
    ∧ _get_marker_for ((_get_marker_for [] "energy" "6").2) "energy" " 6 "
      = _get_marker_for [] "energy" "6" :=
  C8_style_allocation_idempotent [] "energy" "6" " 6 " (by with_unfolding_all decide)

/-- C7 counterexample: the namespaces `""` and `"default"` are distinct,
yet a color allocation performed in namespace `""` adds an entry to
namespace `"default"`'s map (`param_name or "default"`). -/
theorem C7_empty_namespace_aliases_default :
    ("" : String) ≠ "default"
    ∧ lookupNs ((_get_color_for [] "" "6").2) "default" ≠ lookupNs ([] : StyleMaps) "default" := by
  constructor
  · with_unfolding_all decide
  · with_unfolding_all decide

/-- C7 amended: two namespaces are isolated whenever their resolved
store keys differ — for colors the empty namespace resolves to the key
`"default"`, for markers the empty namespace never touches the store —
and the same value in two different namespaces may receive different
symbols. -/
theorem C7_namespace_isolation_amended :
    (∀ (maps : StyleMaps) (ns1 ns2 v : String), colorNsKey ns1 ≠ colorNsKey ns2 →
      lookupNs ((_get_color_for maps ns1 v).2) (colorNsKey ns2) = lookupNs maps (colorNsKey ns2))
    ∧ (∀ (maps : StyleMaps) (ns1 ns2 v : String), ns1 ≠ ns2 →
      lookupNs ((_get_marker_for maps ns1 v).2) ns2 = lookupNs maps ns2)
    ∧ (_get_color_for c7_m2 "fov@depth" "6").1 ≠ (_get_color_for [] "energy" "6").1 := by
  refine ⟨?_, ?_, ?_⟩
  · intro maps ns1 ns2 v h
    obtain ⟨key, hkey⟩ : ∃ key, (if ns1 == "" then "default" else ns1) = key := ⟨_, rfl⟩
    have hkey1 : colorNsKey ns1 = key := hkey
    rw [← hkey1] at *
    simp only [_get_color_for, colorNsKey]
    cases hfind : (lookupNs maps (if ns1 == "" then "default" else ns1)).find?
        (fun p => p.1 == normalizeKey v) with
    | some pr => rfl
    | none =>
        simp only [hfind]
        exact lookupNs_updNs_ne maps _ (colorNsKey ns2) _ (Ne.symm h)
  · intro maps ns1 ns2 v h
    simp only [_get_marker_for]
    cases hns : ns1 == "" with
    | true => rfl
    | false =>
        simp only [hns, Bool.false_eq_true, if_false]
        cases hfind : (lookupNs maps ns1).find? (fun p => p.1 == normalizeKey v) with
        | some pr => rfl
        | none =>
            simp only [hfind]
            exact lookupNs_updNs_ne maps ns1 ns2 _ (Ne.symm h)
  · with_unfolding_all decide

/-- C7 witness: a color allocation in namespace `"energy"` leaves the
`"fov@depth"` namespace untouched. -/
theorem C7_namespace_isolation_amended_witness :
    lookupNs ((_get_color_for [] "energy" "6").2) (colorNsKey "fov@depth")
      = lookupNs ([] : StyleMaps) (colorNsKey "fov@depth") :=
  C7_namespace_isolation_amended.1 [] "energy" "fov@depth" "6" (by with_unfolding_all decide)

/-- C1 counterexample: in namespace `"e"` nine allocations have been
made and the color pool of eight is exhausted; the claim predicts the
next allocation returns `pool[9 mod 8] = "#E69F00"`, but the code
returns `pool[0] = "#0072B2"` — the fallback index is the number of
distinct symbols in use, not the allocation count. -/
theorem C1_forced_reuse_repeats_first_entry :
    OKABE_ITO.all (fun c => ((lookupNs c1_state "e").map (fun p => p.2)).contains c) = true
    ∧ (lookupNs c1_state "e").length = 9
    ∧ (_get_color_for c1_state "e" "v9").1 = "#0072B2"
    ∧ OKABE_ITO.getD (9 % OKABE_ITO.length) "" = "#E69F00"
    ∧ ("#0072B2" : String) ≠ "#E69F00" := by
  refine ⟨?_, ?_, ?_, ?_, ?_⟩ <;> with_unfolding_all decide

/-- C1 amended: once every pool symbol is assigned in a namespace (and
every assigned symbol comes from the pool), allocating any new value
returns `pool[u mod pool_size]` where `u` is the number of distinct
symbols in use; `u` then equals the pool size, so every forced-reuse
allocation returns `pool[0]` — and the exhaustion state persists, so
successive forced-reuse allocations all repeat `pool[0]` rather than
cycling. Stated for the color allocator and the marker allocator. -/
theorem C1_forced_reuse_amended :
    (∀ (maps : StyleMaps) (ns v : String),
      (lookupNs maps (colorNsKey ns)).find? (fun p => p.1 == normalizeKey v) = none →
      (∀ c ∈ OKABE_ITO, c ∈ (lookupNs maps (colorNsKey ns)).map (fun p => p.2)) →
      (∀ s ∈ (lookupNs maps (colorNsKey ns)).map (fun p => p.2), s ∈ OKABE_ITO) →
      (_get_color_for maps ns v).1 = "#0072B2"
      ∧ (∀ c ∈ OKABE_ITO,
          c ∈ (lookupNs ((_get_color_for maps ns v).2) (colorNsKey ns)).map (fun p => p.2))
      ∧ (∀ s ∈ (lookupNs ((_get_color_for maps ns v).2) (colorNsKey ns)).map (fun p => p.2),
          s ∈ OKABE_ITO))
    ∧ (∀ (maps : StyleMaps) (ns v : String),
      (lookupNs maps ns).find? (fun p => p.1 == normalizeKey v) = none →
      (∀ c ∈ MARKER_POOL, c ∈ (lookupNs maps ns).map (fun p => p.2)) →
      (∀ s ∈ (lookupNs maps ns).map (fun p => p.2), s ∈ MARKER_POOL) →
      (_get_marker_for maps ns v).1 = "o"
      ∧ (∀ c ∈ MARKER_POOL,
          c ∈ (lookupNs ((_get_marker_for maps ns v).2) ns).map (fun p => p.2))
      ∧ (∀ s ∈ (lookupNs ((_get_marker_for maps ns v).2) ns).map (fun p => p.2),
          s ∈ MARKER_POOL)) := by
  constructor
  · intro maps ns v hfind h1 h2
    obtain ⟨key, hkey⟩ : ∃ key, (if ns == "" then "default" else ns) = key := ⟨_, rfl⟩
    have hkey1 : colorNsKey ns = key := hkey
    rw [hkey1] at hfind h1 h2 ⊢
    have hnext : _next_from_pool (((lookupNs maps key).map (fun p => p.2)).dedup) OKABE_ITO
        = OKABE_ITO.getD 0 "" :=
      next_from_pool_exhausted (lookupNs maps key) OKABE_ITO
        (by with_unfolding_all decide) (by with_unfolding_all decide) h1 h2
    simp only [_get_color_for, hkey, hfind, hnext]
    refine ⟨rfl, ?_, ?_⟩
    · intro c hc
      rw [lookupNs_updNs_self, List.map_append]
      exact List.mem_append_left _ (h1 c hc)
    · intro s hs
      rw [lookupNs_updNs_self, List.map_append] at hs
      rcases List.mem_append.mp hs with hs | hs
      · exact h2 s hs
      · have : s = OKABE_ITO.getD 0 "" := by simpa using hs
        subst this
        with_unfolding_all decide
  · intro maps ns v hfind h1 h2
    cases hns : ns == "" with
    | true =>
        refine ⟨by simp [_get_marker_for, hns], ?_, ?_⟩
        · intro c hc
          simpa [_get_marker_for, hns] using h1 c hc
        · intro s hs
          exact h2 s (by simpa [_get_marker_for, hns] using hs)
    | false =>
        have hnext : _next_from_pool (((lookupNs maps ns).map (fun p => p.2)).dedup) MARKER_POOL
            = MARKER_POOL.getD 0 "" :=
          next_from_pool_exhausted (lookupNs maps ns) MARKER_POOL
            (by with_unfolding_all decide) (by with_unfolding_all decide) h1 h2
        simp only [_get_marker_for, hns, Bool.false_eq_true, if_false, hfind, hnext]
        refine ⟨rfl, ?_, ?_⟩
        · intro c hc
          rw [lookupNs_updNs_self, List.map_append]
          exact List.mem_append_left _ (h1 c hc)
        · intro s hs
          rw [lookupNs_updNs_self, List.map_append] at hs
          rcases List.mem_append.mp hs with hs | hs
          · exact h2 s hs
          · have : s = MARKER_POOL.getD 0 "" := by simpa using hs
            subst this
            with_unfolding_all decide

/-- C1 witness: in the concrete exhausted state, allocating the fresh
value `"w"` returns the first pool color. -/
theorem C1_forced_reuse_amended_witness :
    (_get_color_for c1_state "e" "w").1 = "#0072B2" :=
  (C1_forced_reuse_amended.1 c1_state "e" "w" (by with_unfolding_all decide)
    (by with_unfolding_all decide) (by with_unfolding_all decide)).1

end MccPlotter
